import Mathlib

/-!
Verification of the ConvFade crossfade tool (`src/convfade.py`) against its
natural-language specification.

The development shallowly embeds the core of `convfade.py`:

* the frame-weighting schedule of the blending loop (lines 128-135),
* the per-frame geometric spectral blend (lines 137-140),
* the time-domain boundary-stitching envelopes (lines 148-163),
* the final sample-accurate assembly (lines 114-117, 165-166),
* the STFT shape assertion (lines 122-124),
* the length validation, stereo handling and sample-rate matching of `main`
  (lines 39-56, 62-70, 78-84).

Python floats are modelled exactly over `ℚ` (all the arithmetic the schedule
performs is exact in binary floating point up to rounding of divisions, which
the claims do not distinguish); square roots force the stitching model into
`ℝ`.  Samples are rationals, complex STFT bins are pairs of rationals with
explicit complex arithmetic, and the external `numpy`/`librosa` square root on
complex bins is an abstract parameter of the blender.
-/

/-- Midpoint of the frame schedule: `half_way = start_stft.shape[0] / 2`
(convfade.py line 128).  Python 3 `/` is true division, so this is the exact
half `N / 2`, not an integer midpoint. -/
def half_way (N : ℕ) : ℚ := (N : ℚ) / 2

/-- `start_scale` as computed by the loop at convfade.py lines 130-134:
`1.0` when `i < half_way`, else `(half_way - (i - half_way)) / half_way`. -/
def start_scale (N i : ℕ) : ℚ :=
  if (i : ℚ) < half_way N then 1
  else (half_way N - ((i : ℚ) - half_way N)) / half_way N

/-- `end_scale` as computed by the loop at convfade.py lines 130-135:
`i / half_way` when `i < half_way`, else `1.0`. -/
def end_scale (N i : ℕ) : ℚ :=
  if (i : ℚ) < half_way N then (i : ℚ) / half_way N
  else 1

/-- Integer midpoint `half = N / 2` in the sense of claim C2 ("a fixed
integer midpoint"), i.e. floor division. -/
def halfInt (N : ℕ) : ℕ := N / 2

/-- The start weight written with the integer midpoint, following the
spec sentence of §4.1 as read by claim C2 (this is the spec-side definition
to be compared with `start_scale`, which is the code-side one). -/
def startWeightIntSpec (N i : ℕ) : ℚ :=
  if i < halfInt N then 1
  else ((halfInt N : ℚ) - ((i : ℚ) - (halfInt N : ℚ))) / (halfInt N : ℚ)

/-- The end weight written with the integer midpoint, following the spec
sentence of §4.1 as read by claim C2. -/
def endWeightIntSpec (N i : ℕ) : ℚ :=
  if i < halfInt N then (i : ℚ) / (halfInt N : ℚ)
  else 1

lemma half_way_pos {N : ℕ} (hN : 2 ≤ N) : 0 < half_way N := by
  unfold half_way
  have : (2 : ℚ) ≤ (N : ℚ) := by exact_mod_cast hN
  linarith

lemma half_way_le {N : ℕ} (hN : 2 ≤ N) : half_way N ≤ (N : ℚ) := by
  unfold half_way
  have : (0 : ℚ) ≤ (N : ℚ) := by positivity
  linarith

/-- On the upper branch the start scale simplifies to `(N - i) / (N / 2)`. -/
lemma start_scale_upper (N i : ℕ) (h : ¬ (i : ℚ) < half_way N) :
    start_scale N i = ((N : ℚ) - (i : ℚ)) / half_way N := by
  unfold start_scale
  rw [if_neg h]
  unfold half_way
  ring_nf

/-- C6: every schedule weight produced by the loop at convfade.py lines
128-135 lies in the closed interval `[0, 1]`. -/
theorem convfade_schedule_bounds (N i : ℕ) (hN : 2 ≤ N) (hi : i < N) :
    0 ≤ start_scale N i ∧ start_scale N i ≤ 1 ∧
    0 ≤ end_scale N i ∧ end_scale N i ≤ 1 := by
  have hh : 0 < half_way N := half_way_pos hN
  by_cases hc : (i : ℚ) < half_way N
  · refine ⟨?_, ?_, ?_, ?_⟩
    · rw [start_scale, if_pos hc]; norm_num
    · rw [start_scale, if_pos hc]
    · rw [end_scale, if_pos hc]
      positivity
    · rw [end_scale, if_pos hc]
      exact le_of_lt ((div_lt_one hh).mpr hc) |>.trans (le_refl 1)
  · have hiN : (i : ℚ) < (N : ℚ) := by exact_mod_cast hi
    push_neg at hc
    refine ⟨?_, ?_, ?_, ?_⟩
    · rw [start_scale_upper N i (not_lt.mpr hc)]
      apply div_nonneg _ (le_of_lt hh)
      linarith
    · rw [start_scale_upper N i (not_lt.mpr hc)]
      rw [div_le_one hh]
      unfold half_way at hc ⊢
      linarith
    · rw [end_scale, if_neg (not_lt.mpr hc)]; norm_num
    · rw [end_scale, if_neg (not_lt.mpr hc)]

/-- Witness for C6 at `N = 5`, `i = 3`. -/
theorem convfade_schedule_bounds_witness :
    0 ≤ start_scale 5 3 ∧ start_scale 5 3 ≤ 1 ∧
    0 ≤ end_scale 5 3 ∧ end_scale 5 3 ≤ 1 :=
  convfade_schedule_bounds 5 3 (by norm_num) (by norm_num)

/-- C5: across frame indices `0 .. N-1` the schedule's start weight is
non-increasing, its end weight is non-decreasing, and frame `0` carries the
pair `(1, 0)` (convfade.py lines 128-135). -/
theorem convfade_schedule_monotone (N : ℕ) (hN : 2 ≤ N) :
    (∀ i j : ℕ, i ≤ j → j < N →
      start_scale N j ≤ start_scale N i ∧ end_scale N i ≤ end_scale N j) ∧
    start_scale N 0 = 1 ∧ end_scale N 0 = 0 := by
  have hh : 0 < half_way N := half_way_pos hN
  have h0 : (0 : ℚ) < half_way N := hh
  refine ⟨?_, ?_, ?_⟩
  · intro i j hij hjN
    have hijQ : (i : ℚ) ≤ (j : ℚ) := by exact_mod_cast hij
    constructor
    · by_cases hcj : (j : ℚ) < half_way N
      · have hci : (i : ℚ) < half_way N := lt_of_le_of_lt hijQ hcj
        simp only [start_scale, if_pos hci, if_pos hcj, le_refl]
      · rw [start_scale_upper N j hcj]
        push_neg at hcj
        by_cases hci : (i : ℚ) < half_way N
        · rw [start_scale, if_pos hci]
          rw [div_le_one hh]
          unfold half_way at hcj ⊢
          linarith
        · rw [start_scale_upper N i hci]
          gcongr
    · by_cases hci : (i : ℚ) < half_way N
      · rw [end_scale, if_pos hci]
        by_cases hcj : (j : ℚ) < half_way N
        · rw [end_scale, if_pos hcj]
          gcongr
        · rw [end_scale, if_neg hcj]
          rw [div_le_one hh]
          exact le_of_lt hci
      · have hcj : ¬ (j : ℚ) < half_way N := by
          push_neg at hci ⊢
          exact le_trans hci hijQ
        rw [end_scale, if_neg hci, end_scale, if_neg hcj]
  · have : (0 : ℚ) < half_way N := hh
    rw [start_scale, if_pos (by exact_mod_cast this)]
  · have : (0 : ℚ) < half_way N := hh
    rw [end_scale, if_pos (by exact_mod_cast this)]
    norm_num

/-- Witness for C5 at `N = 6`. -/
theorem convfade_schedule_monotone_witness :
    (start_scale 6 4 ≤ start_scale 6 2 ∧ end_scale 6 2 ≤ end_scale 6 4) ∧
    start_scale 6 0 = 1 ∧ end_scale 6 0 = 0 :=
  ⟨(convfade_schedule_monotone 6 (by norm_num)).1 2 4 (by norm_num) (by norm_num),
   (convfade_schedule_monotone 6 (by norm_num)).2.1,
   (convfade_schedule_monotone 6 (by norm_num)).2.2⟩

/-- C2 counterexample: with the integer midpoint demanded by the claim,
frame `i = 2` of a 5-frame schedule would carry end weight `1`, but the code
(whose midpoint is the exact `5 / 2 = 2.5`) gives it end weight `4/5`. -/
theorem convfade_schedule_int_midpoint_cex :
    end_scale 5 2 ≠ endWeightIntSpec 5 2 := by
  unfold end_scale endWeightIntSpec half_way halfInt
  norm_num

/-- C2 amended: for every even frame count `N ≥ 2` the code's schedule
(midpoint `N / 2` by exact true division, convfade.py line 128) coincides
with the integer-midpoint schedule of the claim at every frame index. -/
theorem convfade_schedule_matches_int_midpoint (N i : ℕ) (hN : 2 ≤ N)
    (hEven : Even N) (hi : i < N) :
    start_scale N i = startWeightIntSpec N i ∧
    end_scale N i = endWeightIntSpec N i := by
  obtain ⟨m, hm⟩ := hEven
  subst hm
  have hm1 : 1 ≤ m := by omega
  have hhalf : halfInt (m + m) = m := by unfold halfInt; omega
  have hq : half_way (m + m) = (m : ℚ) := by
    unfold half_way
    push_cast
    ring
  have hbr : ((i : ℚ) < half_way (m + m)) ↔ i < halfInt (m + m) := by
    rw [hq, hhalf]
    exact_mod_cast Nat.cast_lt
  constructor
  · unfold start_scale startWeightIntSpec
    by_cases hc : i < halfInt (m + m)
    · rw [if_pos (hbr.mpr hc), if_pos hc]
    · rw [if_neg (fun h => hc (hbr.mp h)), if_neg hc, hq, hhalf]
  · unfold end_scale endWeightIntSpec
    by_cases hc : i < halfInt (m + m)
    · rw [if_pos (hbr.mpr hc), if_pos hc, hq, hhalf]
    · rw [if_neg (fun h => hc (hbr.mp h)), if_neg hc]

/-- Witness for the amended C2 at `N = 6`, `i = 4`. -/
theorem convfade_schedule_matches_int_midpoint_witness :
    start_scale 6 4 = startWeightIntSpec 6 4 ∧
    end_scale 6 4 = endWeightIntSpec 6 4 :=
  convfade_schedule_matches_int_midpoint 6 4 (by norm_num)
    (by exact ⟨3, by norm_num⟩) (by norm_num)

/-- A complex STFT bin, modelled as a pair (real part, imaginary part) of
exact rationals. -/
abbrev CBin := ℚ × ℚ

/-- Element-wise complex multiplication, the `np.multiply` of convfade.py
line 137 on a single pair of bins. -/
def cmul (a b : CBin) : CBin := (a.1 * b.1 - a.2 * b.2, a.1 * b.2 + a.2 * b.1)

/-- Scaling a complex bin by a real scalar (`start_scale * start_stft[i]`
acts on each bin this way). -/
def cscale (r : ℚ) (a : CBin) : CBin := (r * a.1, r * a.2)

/-- The fixed amplitude-compression gain of the blend: the literal `8` of
convfade.py line 137. -/
def convfadeGain : ℚ := 8

/-- One blended frame: `8 * np.sqrt(np.multiply(start_scale * start_stft[i],
end_scale * end_stft[i]))` (convfade.py lines 137-138), element-wise over a
frame.  `csqrt` stands for the external `np.sqrt` principal complex square
root, which is not rational-representable and is kept abstract. -/
def blendFrame (csqrt : CBin → CBin) (N i : ℕ) (sf ef : List CBin) : List CBin :=
  List.zipWith
    (fun a b =>
      cscale convfadeGain
        (csqrt (cmul (cscale (start_scale N i) a) (cscale (end_scale N i) b))))
    sf ef

/-- The blending loop of convfade.py lines 127-140: iterate over the frame
indices of the start spectrogram (already transposed to frame-major order)
and blend frame `i` of each spectrogram under the schedule with
`N = start_stft.shape[0]`. -/
def convfadeStft (csqrt : CBin → CBin) (S E : List (List CBin)) :
    List (List CBin) :=
  (List.range S.length).map fun i => blendFrame csqrt S.length i (S.getD i []) (E.getD i [])

/-- C1: for every frame index `i` of two equal-frame-count spectrograms the
blended frame equals `gain * sqrt((startWeight * startFrame) ⊙ (endWeight *
endFrame))` element-wise, with the schedule weights of lines 128-135 and the
one fixed gain `8` applied identically at every index. -/
theorem convfade_blend_frame (csqrt : CBin → CBin) (S E : List (List CBin))
    (i : ℕ) (hi : i < S.length) (hlen : E.length = S.length) :
    (convfadeStft csqrt S E).getD i [] =
      List.zipWith
        (fun a b =>
          cscale convfadeGain
            (csqrt (cmul (cscale (start_scale S.length i) a)
              (cscale (end_scale S.length i) b))))
        (S.getD i []) (E.getD i []) := by
  unfold convfadeStft blendFrame
  rw [List.getD_eq_getElem?_getD, List.getElem?_map, List.getElem?_range hi]
  rfl

/-- Witness for C1: two concrete 2-frame, 1-bin spectrograms with the
identity in place of the abstract square root. -/
theorem convfade_blend_frame_witness :
    (convfadeStft (fun z => z) [[((1 : ℚ), (0 : ℚ))], [((0 : ℚ), (1 : ℚ))]]
        [[((2 : ℚ), (0 : ℚ))], [((1 : ℚ), (1 : ℚ))]]).getD 1 [] =
      List.zipWith
        (fun a b =>
          cscale convfadeGain
            ((fun z => z) (cmul (cscale (start_scale 2 1) a)
              (cscale (end_scale 2 1) b))))
        ([[((1 : ℚ), (0 : ℚ))], [((0 : ℚ), (1 : ℚ))]].getD 1 [])
        ([[((2 : ℚ), (0 : ℚ))], [((1 : ℚ), (1 : ℚ))]].getD 1 []) :=
  convfade_blend_frame (fun z => z) _ _ 1 (by norm_num) (by norm_num)

/-- The stitching midpoint `half_way = float(result_fade.shape[0] / 2)` of
convfade.py line 148: again exact true division of the synthesized segment
length `L` by two. -/
noncomputable def halfL (L : ℕ) : ℝ := (L : ℝ) / 2

/-- The integer `int(half_way)` used for the slice bounds and the repeat
count at convfade.py lines 150-158: floor of `L / 2`. -/
def halfLFloor (L : ℕ) : ℕ := L / 2

/-- Length of `np.arange(half_way)`: the number of integers below the real
`L / 2`, i.e. `⌈L / 2⌉` (convfade.py line 151). -/
def ceilHalfL (L : ℕ) : ℕ := (L + 1) / 2

/-- Entry `k` of the array `np.append(np.arange(half_way),
np.repeat(int(half_way), int(half_way)))` built at convfade.py lines
150-151: the integer `k` for `k` below `⌈L/2⌉`, then the constant
`int(half_way)`. -/
noncomputable def start_amp_base (L k : ℕ) : ℝ :=
  if k < ceilHalfL L then (k : ℝ) else (halfLFloor L : ℝ)

/-- Entry `k` of the final `start_amp` array: `np.sqrt(1 - start_amp /
half_way)` followed by the in-place zeroing `start_amp[int(half_way):] = 0`
(convfade.py lines 152-153). -/
noncomputable def start_amp (L k : ℕ) : ℝ :=
  if halfLFloor L ≤ k then 0
  else Real.sqrt (1 - start_amp_base L k / halfL L)

/-- Entry `k` of the array `np.append(np.repeat(int(half_way),
int(half_way)), np.arange(half_way, L))` built at convfade.py lines
155-156: the constant `int(half_way)` for `k` below it, then the arithmetic
progression starting at the real `half_way` (which is fractional when `L`
is odd). -/
noncomputable def end_amp_base (L k : ℕ) : ℝ :=
  if k < halfLFloor L then (halfLFloor L : ℝ)
  else halfL L + ((k - halfLFloor L : ℕ) : ℝ)

/-- Entry `k` of the final `end_amp` array: `np.sqrt((end_amp - half_way) /
half_way)` followed by the in-place zeroing `end_amp[:int(half_way)] = 0`
(convfade.py lines 157-158). -/
noncomputable def end_amp (L k : ℕ) : ℝ :=
  if k < halfLFloor L then 0
  else Real.sqrt ((end_amp_base L k - halfL L) / halfL L)

/-- Sample `k` of the stitched fade segment (convfade.py lines 160-163):
the synthesized sample plus the enveloped original start tail (offset by
`fade_start`) plus the enveloped original end head. -/
noncomputable def result_fade_stitched (synth startW endW : ℕ → ℝ)
    (fade_start L k : ℕ) : ℝ :=
  synth k + start_amp L k * startW (fade_start + k) + end_amp L k * endW k

/-- Start envelope as stated by claim C4 (spec-side definition): `sqrt(max
(0, 1 - k/halfL))` for `k < halfL`, else `0`. -/
noncomputable def startEnvelopeSpec (L k : ℕ) : ℝ :=
  if (k : ℝ) < halfL L then Real.sqrt (max 0 (1 - (k : ℝ) / halfL L)) else 0

/-- End envelope as stated by claim C4 (spec-side definition): `sqrt(max
(0, (k - halfL)/halfL))` for `k ≥ halfL`, else `0`. -/
noncomputable def endEnvelopeSpec (L k : ℕ) : ℝ :=
  if (k : ℝ) < halfL L then 0 else Real.sqrt (max 0 (((k : ℝ) - halfL L) / halfL L))

/-- C4 counterexample: for an odd segment length `L = 5` at `k = 2` the
claimed start envelope is `sqrt(1/5) > 0` (since `2 < 5/2`), but the code
zeroes every entry from `int(half_way) = 2` on, so `start_amp` is `0`
there. -/
theorem convfade_stitch_envelope_cex : start_amp 5 2 ≠ startEnvelopeSpec 5 2 := by
  have h1 : start_amp 5 2 = 0 := by
    unfold start_amp halfLFloor
    norm_num
  have h2 : (0 : ℝ) < startEnvelopeSpec 5 2 := by
    unfold startEnvelopeSpec halfL
    rw [if_pos (by norm_num)]
    apply Real.sqrt_pos.mpr
    norm_num
  rw [h1]
  exact ne_of_lt h2

/-- C4 amended: for every even synthesized length `L > 0` and sample index
`k < L`, the code's stitching envelopes equal the claimed formulas and the
stitched sample is `synthesized[k] + startEnv·startTail[fadeStart+k] +
endEnv·endHead[k]`. -/
theorem convfade_stitch_even (L k : ℕ) (hL : 0 < L) (hEven : Even L)
    (hk : k < L) :
    start_amp L k = startEnvelopeSpec L k ∧
    end_amp L k = endEnvelopeSpec L k ∧
    ∀ (synth startW endW : ℕ → ℝ) (fade_start : ℕ),
      result_fade_stitched synth startW endW fade_start L k =
        synth k + startEnvelopeSpec L k * startW (fade_start + k) +
          endEnvelopeSpec L k * endW k := by
  obtain ⟨m, rfl⟩ := hEven
  have hm1 : 1 ≤ m := by omega
  have hmR : (0 : ℝ) < (m : ℝ) := by exact_mod_cast hm1
  have hfloor : halfLFloor (m + m) = m := by unfold halfLFloor; omega
  have hceil : ceilHalfL (m + m) = m := by unfold ceilHalfL; omega
  have hhalf : halfL (m + m) = (m : ℝ) := by
    unfold halfL; push_cast; ring
  have hstart : start_amp (m + m) k = startEnvelopeSpec (m + m) k := by
    unfold start_amp startEnvelopeSpec start_amp_base
    rw [hfloor, hceil, hhalf]
    by_cases hkm : k < m
    · have hkmR : (k : ℝ) < (m : ℝ) := by exact_mod_cast hkm
      rw [if_neg (by omega), if_pos hkm, if_pos hkmR]
      congr 1
      rw [max_eq_right]
      have : (k : ℝ) / (m : ℝ) ≤ 1 := by
        rw [div_le_one hmR]
        exact le_of_lt hkmR
      linarith
    · have hkmR : ¬ (k : ℝ) < (m : ℝ) := by
        push_neg
        exact_mod_cast not_lt.mp hkm
      rw [if_pos (by omega), if_neg hkmR]
  have hend : end_amp (m + m) k = endEnvelopeSpec (m + m) k := by
    unfold end_amp endEnvelopeSpec end_amp_base
    rw [hfloor, hhalf]
    by_cases hkm : k < m
    · have hkmR : (k : ℝ) < (m : ℝ) := by exact_mod_cast hkm
      rw [if_pos hkm, if_pos hkmR]
    · have hmk : m ≤ k := not_lt.mp hkm
      have hkmR : ¬ (k : ℝ) < (m : ℝ) := by
        push_neg
        exact_mod_cast hmk
      rw [if_neg hkm, if_neg hkm, if_neg hkmR]
      have hsub : ((k - m : ℕ) : ℝ) = (k : ℝ) - (m : ℝ) := by
        push_cast [Nat.cast_sub hmk]
        ring
      rw [hsub]
      congr 1
      rw [max_eq_right]
      · ring_nf
      · apply div_nonneg _ (le_of_lt hmR)
        have : (m : ℝ) ≤ (k : ℝ) := by exact_mod_cast hmk
        linarith
  refine ⟨hstart, hend, ?_⟩
  intro synth startW endW fade_start
  unfold result_fade_stitched
  rw [hstart, hend]

/-- Witness for the amended C4 at `L = 4`, `k = 1`. -/
theorem convfade_stitch_even_witness :
    start_amp 4 1 = startEnvelopeSpec 4 1 ∧
    end_amp 4 1 = endEnvelopeSpec 4 1 ∧
    ∀ (synth startW endW : ℕ → ℝ) (fade_start : ℕ),
      result_fade_stitched synth startW endW fade_start 4 1 =
        synth 1 + startEnvelopeSpec 4 1 * startW (fade_start + 1) +
          endEnvelopeSpec 4 1 * endW 1 :=
  convfade_stitch_even 4 1 (by norm_num) ⟨2, by norm_num⟩ (by norm_num)

/-- The sample index at which the fade begins: `fade_start = (start_w.shape[0]
- 1) - fade_len_s` (convfade.py line 117).  The code computes this over
Python integers; the natural-number subtraction agrees with it whenever
`fade_len_s < start_w.length`, which the validation of `main` guarantees for
every fade shorter than the start clip. -/
def fade_start_idx (startLen fade_len_s : ℕ) : ℕ := startLen - 1 - fade_len_s

/-- The tail of the start waveform handed to the analysis transform:
`start_w[fade_start:]` (convfade.py line 122). -/
def startTail {α : Type} (start_w : List α) (fade_len_s : ℕ) : List α :=
  start_w.drop (fade_start_idx start_w.length fade_len_s)

/-- The head of the end waveform handed to the analysis transform:
`end_w[0:fade_len_s]` (convfade.py line 123). -/
def endHead {α : Type} (end_w : List α) (fade_len_s : ℕ) : List α :=
  end_w.take fade_len_s

/-- The final assembly `np.append(np.append(start_w[0:fade_start],
result_fade), end_w[fade_len_s:])` (convfade.py lines 165-166). -/
def convfadeAssemble {α : Type} (start_w result_fade end_w : List α)
    (fade_len_s : ℕ) : List α :=
  start_w.take (fade_start_idx start_w.length fade_len_s) ++ result_fade ++
    end_w.drop fade_len_s

/-- C3 counterexample: with a 5-sample start clip and `fade_len_s = 2` the
code keeps only `5 - 1 - 2 = 2` untouched prefix samples, not the `5 - 2 =
3` the claim states, and the start tail handed to analysis has 3 samples
while the end head has 2. -/
theorem convfade_assemble_cex :
    convfadeAssemble [10, 20, 30, 40, 50] [99] [1, 2, 3] 2 ≠
      List.take (([10, 20, 30, 40, 50] : List ℕ).length - 2)
          [10, 20, 30, 40, 50] ++ [99] ++ List.drop 2 [1, 2, 3] ∧
    (startTail ([10, 20, 30, 40, 50] : List ℕ) 2).length ≠
      (endHead ([1, 2, 3] : List ℕ) 2).length := by decide

/-- C3 amended: the assembled output is `startWaveform[0 .. len-1-fadeLenS)
++ fadedSegment ++ endWaveform[fadeLenS .. end)`; the start tail handed to
analysis is the last `fadeLenS + 1` samples of the start waveform, one
sample longer than the end head. -/
theorem convfade_assemble_spec {α : Type} (start_w result_fade end_w : List α)
    (fade_len_s : ℕ) (h1 : fade_len_s < start_w.length)
    (h2 : fade_len_s ≤ end_w.length) :
    convfadeAssemble start_w result_fade end_w fade_len_s =
      start_w.take (start_w.length - 1 - fade_len_s) ++ result_fade ++
        end_w.drop fade_len_s ∧
    (startTail start_w fade_len_s).length = fade_len_s + 1 ∧
    (endHead end_w fade_len_s).length = fade_len_s := by
  refine ⟨rfl, ?_, ?_⟩
  · unfold startTail fade_start_idx
    rw [List.length_drop]
    omega
  · unfold endHead
    rw [List.length_take]
    omega

/-- Witness for the amended C3 on concrete 5- and 3-sample clips. -/
theorem convfade_assemble_spec_witness :
    convfadeAssemble ([10, 20, 30, 40, 50] : List ℕ) [99] [1, 2, 3] 2 =
      List.take (([10, 20, 30, 40, 50] : List ℕ).length - 1 - 2)
          [10, 20, 30, 40, 50] ++ [99] ++ List.drop 2 [1, 2, 3] ∧
    (startTail ([10, 20, 30, 40, 50] : List ℕ) 2).length = 2 + 1 ∧
    (endHead ([1, 2, 3] : List ℕ) 2).length = 2 :=
  convfade_assemble_spec [10, 20, 30, 40, 50] [99] [1, 2, 3] 2
    (by norm_num) (by norm_num)

/-- Number of frequency bins per frame of a real STFT with `n_fft`-sample
frames: `n_fft / 2 + 1`.  Modelled from the spec: `librosa.core.stft` is an
external collaborator; the spec's data model fixes each spectrogram frame to
one width derived from the frame length in samples, and both calls at
convfade.py lines 122-123 pass the same `n_fft = frame_len_s`. -/
def stftBinCount (n_fft : ℕ) : ℕ := n_fft / 2 + 1

/-- Shape of a transposed spectrogram as compared by the assertion at
convfade.py line 124: (frame count, bin count). -/
def spectShape (numFrames n_fft : ℕ) : ℕ × ℕ := (numFrames, stftBinCount n_fft)

/-- The assertion `assert start_stft.shape == end_stft.shape` of convfade.py
line 124: the run proceeds exactly when the two shapes are equal and aborts
otherwise. -/
def stftShapeAssertPasses (nStart nEnd n_fft : ℕ) : Bool :=
  decide (spectShape nStart n_fft = spectShape nEnd n_fft)

/-- C7: the run aborts at the shape assertion if and only if the two
spectrograms have unequal frame counts (their bin counts always agree, both
transforms being taken with the same frame size). -/
theorem convfade_shape_assert_iff (nStart nEnd n_fft : ℕ) :
    stftShapeAssertPasses nStart nEnd n_fft = false ↔ nStart ≠ nEnd := by
  unfold stftShapeAssertPasses spectShape
  simp [Prod.ext_iff]

/-- Duration of a clip in seconds: `shape / float(sr)` (convfade.py lines
45-49). -/
def clipDuration (numSamples sampleRate : ℕ) : ℚ :=
  (numSamples : ℚ) / (sampleRate : ℚ)

/-- Outcome of a run that reached a given point: either a fatal error with
its message (Python `sys.exit(msg)`, which exits with a non-zero status
before any output is written) or continuation. -/
def isErrorExit : Except String Unit → Bool
  | Except.error _ => true
  | Except.ok _ => false

/-- The length validation of `main` (convfade.py lines 51-56), performed
after loading the clips and before the sample-rate matching and any
transform work: first the fade-vs-clip-duration check, then the
frame-vs-fade-length check, each a strict comparison. -/
def lengthValidate (length frame start_dur end_dur : ℚ) : Except String Unit :=
  if length > start_dur ∨ length > end_dur then
    Except.error "Length of fade greater than length of at least one of the input audio clips."
  else if frame > length * 1000 then
    Except.error "Length of FFT frames is greater than the length of the crossfade."
  else Except.ok ()

/-- C8: the run exits with a length error, writing no output, if and only
if the fade length exceeds either clip's duration or the frame length in
milliseconds exceeds the fade length in seconds times 1000; equality in
either comparison is accepted. -/
theorem convfade_length_validation (length frame : ℚ)
    (nStart srStart nEnd srEnd : ℕ) :
    isErrorExit (lengthValidate length frame (clipDuration nStart srStart)
        (clipDuration nEnd srEnd)) = true ↔
      (length > clipDuration nStart srStart ∨
        length > clipDuration nEnd srEnd ∨ frame > length * 1000) := by
  unfold lengthValidate
  by_cases h1 : length > clipDuration nStart srStart ∨ length > clipDuration nEnd srEnd
  · rw [if_pos h1]
    simp [isErrorExit]
    tauto
  · rw [if_neg h1]
    by_cases h2 : frame > length * 1000
    · rw [if_pos h2]
      simp [isErrorExit]
      tauto
    · rw [if_neg h2]
      have hok : isErrorExit (Except.ok ()) = false := rfl
      rw [hok]
      simp only [Bool.false_eq_true, false_iff]
      push_neg at h1 h2 ⊢
      exact ⟨h1.1, h1.2, h2⟩

/-- A waveform as loaded by `librosa.core.load(..., mono=False)`: a 1-D
array of samples, or a 2-D array of two channels. -/
inductive Audio where
  | mono : List ℚ → Audio
  | stereo : List ℚ → List ℚ → Audio

/-- Whether `len(w.shape) > 1` (convfade.py lines 39-42, 78). -/
def Audio.isStereo : Audio → Bool
  | .mono _ => false
  | .stereo _ _ => true

/-- The duplication `np.array([w, w])` applied to a mono waveform when the
other input is stereo (convfade.py lines 41 and 43); a stereo waveform is
left unchanged. -/
def Audio.toStereo : Audio → Audio
  | .mono s => .stereo s s
  | a => a

/-- First channel `w[0]` (for a mono waveform, the whole signal). -/
def Audio.channelL : Audio → List ℚ
  | .mono s => s
  | .stereo l _ => l

/-- Second channel `w[1]` (for a mono waveform, the whole signal). -/
def Audio.channelR : Audio → List ℚ
  | .mono s => s
  | .stereo _ r => r

/-- The stereo-vs-mono normalization of convfade.py lines 39-43: if either
input is 2-D, a mono input is duplicated into two identical channels. -/
def matchChannels (a b : Audio) : Audio × Audio :=
  if a.isStereo || b.isStereo then (a.toStereo, b.toStereo) else (a, b)

/-- The per-channel dispatch of convfade.py lines 78-87: in stereo mode run
the fade once per channel with the same sample rate, fade length and frame
length, and recombine with `np.array([result_l, result_r])`; in mono mode
run it once.  `fade` abstracts the `convfade` routine. -/
def stereoFadePipeline (fade : List ℚ → List ℚ → ℕ → ℚ → ℕ → List ℚ)
    (a b : Audio) (sr : ℕ) (length : ℚ) (frame : ℕ) : Audio :=
  let p := matchChannels a b
  if p.1.isStereo then
    Audio.stereo (fade p.1.channelL p.2.channelL sr length frame)
      (fade p.1.channelR p.2.channelR sr length frame)
  else
    Audio.mono (fade p.1.channelL p.2.channelL sr length frame)

/-- C9: when either input is multi-channel, a mono input is duplicated into
two identical channels and each channel is processed by one independent
`fade` call with the same sample rate, fade length and frame length, the
results recombined only at the end; when both inputs are mono the pipeline
runs once on the mono signals. -/
theorem convfade_stereo_handling (fade : List ℚ → List ℚ → ℕ → ℚ → ℕ → List ℚ)
    (a b : Audio) (sr : ℕ) (length : ℚ) (frame : ℕ) :
    ((a.isStereo = true ∨ b.isStereo = true) →
      stereoFadePipeline fade a b sr length frame =
        Audio.stereo (fade a.toStereo.channelL b.toStereo.channelL sr length frame)
          (fade a.toStereo.channelR b.toStereo.channelR sr length frame)) ∧
    (∀ s1 s2 : List ℚ, a = Audio.mono s1 → b = Audio.mono s2 →
      stereoFadePipeline fade a b sr length frame =
        Audio.mono (fade s1 s2 sr length frame)) ∧
    (∀ s : List ℚ, (Audio.mono s).toStereo = Audio.stereo s s) := by
  refine ⟨?_, ?_, fun s => rfl⟩
  · intro h
    cases a <;> cases b <;>
      simp_all [stereoFadePipeline, matchChannels, Audio.isStereo,
        Audio.toStereo, Audio.channelL, Audio.channelR]
  · intro s1 s2 ha hb
    subst ha
    subst hb
    simp [stereoFadePipeline, matchChannels, Audio.isStereo,
      Audio.channelL, Audio.channelR]

/-- Witness for C9: a stereo start clip with a mono end clip. -/
theorem convfade_stereo_handling_witness :
    stereoFadePipeline (fun l r _ _ _ => l ++ r)
        (Audio.stereo [1] [2]) (Audio.mono [3]) 44100 3 200 =
      Audio.stereo ([1] ++ [3]) ([2] ++ [3]) :=
  (convfade_stereo_handling (fun l r _ _ _ => l ++ r)
    (Audio.stereo [1] [2]) (Audio.mono [3]) 44100 3 200).1 (Or.inl rfl)

/-- The sample-rate matching of convfade.py lines 62-70, with `resample`
abstracting `librosa.core.resample`: the global rate starts at `start_sr`;
if `start_sr > end_sr` the end waveform is resampled up and the rate stays
`start_sr`; if `end_sr > start_sr` the start waveform is resampled up and
the rate becomes `end_sr`.  Returns (start waveform, end waveform, rate). -/
def matchSampleRates (resample : List ℚ → ℕ → ℕ → List ℚ)
    (start_w end_w : List ℚ) (start_sr end_sr : ℕ) :
    List ℚ × List ℚ × ℕ :=
  let sr := start_sr
  let end_w' := if start_sr > end_sr then resample end_w end_sr start_sr else end_w
  let sr := if start_sr > end_sr then start_sr else sr
  let start_w' := if end_sr > start_sr then resample start_w start_sr end_sr else start_w
  let sr := if end_sr > start_sr then end_sr else sr
  (start_w', end_w', sr)

/-- C10: the common rate is the maximum of the two input rates; when the
rates differ only the lower-rate waveform is resampled up to the higher
rate, and when they are equal neither waveform is touched. -/
theorem convfade_rate_matching (resample : List ℚ → ℕ → ℕ → List ℚ)
    (start_w end_w : List ℚ) (start_sr end_sr : ℕ) :
    (matchSampleRates resample start_w end_w start_sr end_sr).2.2 =
      max start_sr end_sr ∧
    (start_sr = end_sr →
      matchSampleRates resample start_w end_w start_sr end_sr =
        (start_w, end_w, start_sr)) ∧
    (end_sr < start_sr →
      matchSampleRates resample start_w end_w start_sr end_sr =
        (start_w, resample end_w end_sr start_sr, start_sr)) ∧
    (start_sr < end_sr →
      matchSampleRates resample start_w end_w start_sr end_sr =
        (resample start_w start_sr end_sr, end_w, end_sr)) := by
  unfold matchSampleRates
  rcases Nat.lt_trichotomy start_sr end_sr with h | h | h
  · refine ⟨?_, fun he => absurd he (by omega), fun he => absurd he (by omega), fun _ => ?_⟩ <;>
      simp [h, Nat.lt_asymm h, Nat.max_eq_right (Nat.le_of_lt h)]
  · subst h
    refine ⟨?_, fun _ => ?_, fun he => absurd he (by omega), fun he => absurd he (by omega)⟩ <;>
      simp
  · refine ⟨?_, fun he => absurd he (by omega), fun _ => ?_, fun he => absurd he (by omega)⟩ <;>
      simp [h, Nat.lt_asymm h, Nat.max_eq_left (Nat.le_of_lt h)]

/-- Witness for C10: rates 4 and 2, so the end waveform is resampled up. -/
theorem convfade_rate_matching_witness :
    matchSampleRates (fun w _ _ => w ++ w) [1, 2] [3] 4 2 =
      ([1, 2], [3] ++ [3], 4) :=
  (convfade_rate_matching (fun w _ _ => w ++ w) [1, 2] [3] 4 2).2.2.1
    (by norm_num)
